import Mathlib

/-!
Shallow embedding of `src/main.py`, an image-metadata synchronization script.

The script reconciles a storage bucket against a Firestore collection:
`main` lists image basenames in the bucket (`list_images_in_bucket`),
lists existing record ids, deletes records whose id is absent from storage,
and for each new id runs the pipeline `get_image_metadata` (fetch, Gemini
tagging, translation) and persists the record (`save_metadata_to_firestore`).

External services (storage download, Gemini, translation, Firestore
delete/set and the id listing) are modelled as oracles in an `Env`; each
oracle's failure flag stands for the corresponding Python call raising an
exception.  The Firestore collection is an association list from document
id to record; every remote call performed is logged in an event trace.
-/

/-- Python `str.split(sep)` on a single-character separator, over the
character list of the string.  `''.split(',') = ['']`. -/
def pySplitList (sep : Char) : List Char → List (List Char)
  | [] => [[]]
  | c :: cs =>
    if c = sep then [] :: pySplitList sep cs
    else
      match pySplitList sep cs with
      | [] => [[c]]
      | h :: t => (c :: h) :: t

/-- Whitespace characters stripped by Python `str.strip()` (ASCII range). -/
def pySpace (c : Char) : Bool :=
  c = ' ' || c = '\t' || c = '\n' || c = '\r' || c = '\x0b' || c = '\x0c'

/-- Python `str.strip()`: drop leading and trailing whitespace. -/
def pyStrip (cs : List Char) : List Char :=
  ((cs.dropWhile pySpace).reverse.dropWhile pySpace).reverse

/-- String wrapper for `pySplitList`. -/
def pySplit (sep : Char) (s : String) : List String :=
  (pySplitList sep s.data).map String.mk

/-- String wrapper for `pyStrip`. -/
def pyStripS (s : String) : String :=
  ⟨pyStrip s.data⟩

/-- `cs` ends with `suf` (Python `str.endswith` for a single suffix). -/
def endsWithL (cs suf : List Char) : Bool :=
  cs.drop (cs.length - suf.length) == suf

/-- String wrapper for `endsWithL`. -/
def strEndsWith (s suf : String) : Bool :=
  endsWithL s.data suf.data

/-- `os.path.basename`: the last `/`-separated segment of a path. -/
def basename (s : String) : String :=
  ⟨(pySplitList '/' s.data).getLastD []⟩

/-- The extension filter of `list_images_in_bucket`:
`blob.name.endswith(('.jpg', '.jpeg', '.png'))`, case-sensitive. -/
def isImageName (name : String) : Bool :=
  strEndsWith name ".jpg" || strEndsWith name ".jpeg" || strEndsWith name ".png"

/-- `list_images_in_bucket` from `src/main.py`: over the blob names listed
under `folderPath`, keep image extensions, drop a name equal to the folder
path itself, and collect the basenames into a set (modelled as a
duplicate-free list). -/
def list_images_in_bucket (blobs : List String) (folderPath : String) : List String :=
  (((blobs.filter (fun n => isImageName n && n ≠ folderPath)).map basename)).dedup

/-- Tag extraction in `get_image_metadata`:
`[tag.strip() for tag in text.split(',') if tag.strip()]`. -/
def parseTags (text : String) : List String :=
  ((pySplit ',' text).map pyStripS).filter (fun t => t ≠ "")

/-- The Firestore document written by the script. -/
structure ImageRecord where
  file_id : String
  file_name : String
  tags_en : List String
  tags_pt : List String
  processed_at : String
deriving DecidableEq, Repr

/-- The `images` Firestore collection: documents keyed by id. -/
abbrev Store := List (String × ImageRecord)

/-- One remote call issued during a run. -/
inductive Event where
  | listBlobs
  | listRecords
  | deleteRecord (id : String)
  | fetchBlob (path : String)
  | geminiCall (path : String)
  | translateCall (tags : List String)
  | saveRecord (id : String)
deriving DecidableEq, Repr

/-- Oracles for the external services and the run's configuration.
A `false` success flag (or `none` response) stands for the Python call
raising an exception. -/
structure Env where
  /-- Blob names returned by `bucket.list_blobs(prefix=folder_path)`. -/
  blobs : List String
  /-- `BUCKET_FOLDER_PATH`. -/
  folderPath : String
  /-- Whether streaming the `images` collection ids succeeds. -/
  listRecordsOk : Bool
  /-- Whether `download_as_bytes` plus `Image.open` succeed for a path. -/
  fetchOk : String → Bool
  /-- `generate_content` plus `.text`: `none` means the call raised;
  `some t` is the model's text (possibly empty). -/
  gemini : String → Option String
  /-- Whether the batched translation call succeeds on a tag list. -/
  translateOk : List String → Bool
  /-- Per-string behaviour of the order-preserving translation service:
  element `i` of the batch response is `translateOne` of input `i`. -/
  translateOne : String → String
  /-- Whether `document(id).delete()` succeeds. -/
  deleteOk : String → Bool
  /-- Whether `doc_ref.set(metadata)` succeeds for a document id. -/
  saveOk : String → Bool
  /-- `datetime.now(timezone.utc).isoformat()` at write time. -/
  now : String

/-- `get_image_metadata` from `src/main.py`: fetch the blob, ask Gemini for
comma-separated tags, translate them when non-empty, and assemble the
record.  Returns `none` when a step raised, together with the trace of
remote calls made before the failure. -/
def get_image_metadata (env : Env) (path : String) : Option ImageRecord × List Event :=
  if env.fetchOk path then
    match env.gemini path with
    | none => (none, [.fetchBlob path, .geminiCall path])
    | some text =>
      let all_tags_en := if text ≠ "" then parseTags text else []
      if all_tags_en.isEmpty then
        (some { file_id := basename path, file_name := path,
                tags_en := all_tags_en, tags_pt := [], processed_at := env.now },
         [.fetchBlob path, .geminiCall path])
      else
        if env.translateOk all_tags_en then
          (some { file_id := basename path, file_name := path,
                  tags_en := all_tags_en,
                  tags_pt := all_tags_en.map env.translateOne,
                  processed_at := env.now },
           [.fetchBlob path, .geminiCall path, .translateCall all_tags_en])
        else
          (none, [.fetchBlob path, .geminiCall path, .translateCall all_tags_en])
  else
    (none, [.fetchBlob path])

/-- Document ids present in the collection. -/
def storeKeys (store : Store) : List String :=
  store.map Prod.fst

/-- `doc_ref.set`: create-or-replace keyed by `file_id`. -/
def storeSet (store : Store) (r : ImageRecord) : Store :=
  store.filter (fun p => p.1 ≠ r.file_id) ++ [(r.file_id, r)]

/-- `document(id).delete()`: remove the document, no error when absent. -/
def storeDelete (store : Store) (id : String) : Store :=
  store.filter (fun p => p.1 ≠ id)

/-- `save_metadata_to_firestore` from `src/main.py`; a failed `set` leaves
the collection unchanged (the exception is caught by the caller). -/
def save_metadata_to_firestore (env : Env) (store : Store) (r : ImageRecord) : Store :=
  if env.saveOk r.file_id then storeSet store r else store

/-- `deleted_image_ids = firestore_doc_ids - storage_image_ids`. -/
def toDelete (stored present : List String) : List String :=
  stored.filter (fun id => decide (id ∉ present))

/-- `new_image_ids = storage_image_ids - firestore_doc_ids`. -/
def toCreate (stored present : List String) : List String :=
  present.filter (fun id => decide (id ∉ stored))

/-- The delete loop of `main`: each `delete` is wrapped in its own
`try/except`, so a failure leaves the store unchanged and the loop
continues. -/
def runDeletes (env : Env) : List String → Store → Store × List Event
  | [], store => (store, [])
  | id :: rest, store =>
    let store1 := if env.deleteOk id then storeDelete store id else store
    ((runDeletes env rest store1).1, .deleteRecord id :: (runDeletes env rest store1).2)

/-- The create loop of `main`: for each new id build the path
`BUCKET_FOLDER_PATH + file_id` (plain concatenation), run the pipeline and
save; any exception from either call is caught and the loop continues. -/
def runCreates (env : Env) : List String → Store → Store × List Event
  | [], store => (store, [])
  | id :: rest, store =>
    match get_image_metadata env (env.folderPath ++ id) with
    | (none, pevs) =>
      ((runCreates env rest store).1, pevs ++ (runCreates env rest store).2)
    | (some r, pevs) =>
      ((runCreates env rest (save_metadata_to_firestore env store r)).1,
       pevs ++ [.saveRecord r.file_id]
         ++ (runCreates env rest (save_metadata_to_firestore env store r)).2)

/-- `main` from `src/main.py` (named `synchronize` here since Lean reserves `main`): list storage basenames, list record ids
(aborting the run if that raises), delete orphaned records, then process
and save new images.  Returns the final collection and the trace of remote
calls. -/
def synchronize (env : Env) (store0 : Store) : Store × List Event :=
  let storage_image_ids := list_images_in_bucket env.blobs env.folderPath
  if env.listRecordsOk then
    let firestore_doc_ids := (storeKeys store0).dedup
    let deleted_image_ids := toDelete firestore_doc_ids storage_image_ids
    let store1 := (runDeletes env deleted_image_ids store0).1
    let new_image_ids := toCreate firestore_doc_ids storage_image_ids
    ((runCreates env new_image_ids store1).1,
     [.listBlobs, .listRecords] ++ (runDeletes env deleted_image_ids store0).2
       ++ (runCreates env new_image_ids store1).2)
  else
    (store0, [.listBlobs, .listRecords])

/-- Whether an event is a call to the translation service. -/
def isTranslateCall : Event → Bool
  | .translateCall _ => true
  | _ => false

/-! ### Concrete environments and records for witnesses and scenarios -/

/-- A concrete environment whose record listing fails. -/
def envListFail : Env :=
  { blobs := ["a.jpg"], folderPath := "", listRecordsOk := false,
    fetchOk := fun _ => true, gemini := fun _ => some "cat",
    translateOk := fun _ => true, translateOne := fun s => s,
    deleteOk := fun _ => true, saveOk := fun _ => true, now := "t0" }

/-- A sample record used to populate concrete stores. -/
def recSample (id : String) : ImageRecord :=
  { file_id := id, file_name := id, tags_en := ["cat"], tags_pt := ["cat"],
    processed_at := "t0" }

/-- A fully successful environment: one new image `a.jpg`, Gemini answers
`"cat, dog"`, every service call succeeds. -/
def envOk : Env :=
  { blobs := ["a.jpg"], folderPath := "", listRecordsOk := true,
    fetchOk := fun _ => true, gemini := fun _ => some "cat, dog",
    translateOk := fun _ => true, translateOne := fun s => s,
    deleteOk := fun _ => true, saveOk := fun _ => true, now := "t0" }

/-- Environment where processing `a.jpg` fails (Gemini raises) while
`b.png` succeeds; both are new. -/
def envAB : Env :=
  { blobs := ["a.jpg", "b.png"], folderPath := "", listRecordsOk := true,
    fetchOk := fun _ => true,
    gemini := fun p => if p = "b.png" then some "dog" else none,
    translateOk := fun _ => true, translateOne := fun s => s,
    deleteOk := fun _ => true, saveOk := fun _ => true, now := "t0" }

/-- Environment whose storage and store already agree on `{b.png}`. -/
def envIdem : Env :=
  { blobs := ["b.png"], folderPath := "", listRecordsOk := true,
    fetchOk := fun _ => true, gemini := fun _ => some "cat",
    translateOk := fun _ => true, translateOne := fun s => s,
    deleteOk := fun _ => true, saveOk := fun _ => true, now := "t0" }

/-- Two storage objects in different subfolders sharing the basename
`x.jpg`; every service call succeeds. -/
def envDup : Env :=
  { blobs := ["d/x.jpg", "e/x.jpg"], folderPath := "", listRecordsOk := true,
    fetchOk := fun _ => true, gemini := fun _ => some "cat",
    translateOk := fun _ => true, translateOne := fun s => s,
    deleteOk := fun _ => true, saveOk := fun _ => true, now := "t0" }

/-- The single record produced by a run over `envDup`. -/
def recDup : ImageRecord :=
  { file_id := "x.jpg", file_name := "x.jpg", tags_en := ["cat"],
    tags_pt := ["cat"], processed_at := "t0" }

/-- Environment with one object nested in a subfolder below the prefix
`photos/`; only the object's real path is fetchable. -/
def envNested : Env :=
  { blobs := ["photos/sub/b.png"], folderPath := "photos/", listRecordsOk := true,
    fetchOk := fun p => p = "photos/sub/b.png",
    gemini := fun _ => some "cat", translateOk := fun _ => true,
    translateOne := fun s => s, deleteOk := fun _ => true,
    saveOk := fun _ => true, now := "t0" }

/-- Configuration with a folder prefix carrying no trailing slash:
`BUCKET_FOLDER_PATH = "photos"`, objects `photos/a.jpg` and
`photosa.jpg`.  Only real object paths are fetchable, and every service
call on them succeeds. -/
def envPfx : Env :=
  { blobs := ["photos/a.jpg", "photosa.jpg"], folderPath := "photos",
    listRecordsOk := true,
    fetchOk := fun p => p == "photos/a.jpg" || p == "photosa.jpg",
    gemini := fun _ => some "dog", translateOk := fun _ => true,
    translateOne := fun s => s, deleteOk := fun _ => true,
    saveOk := fun _ => true, now := "t0" }

/-- A store already holding a record for `photosa.jpg`. -/
def store0Pfx : Store := [("photosa.jpg", recSample "photosa.jpg")]

/-- The record produced when a run over `envPfx` processes the new id
`a.jpg` at the rebuilt path `"photos" ++ "a.jpg" = "photosa.jpg"`. -/
def recPfx : ImageRecord :=
  { file_id := "photosa.jpg", file_name := "photosa.jpg", tags_en := ["dog"],
    tags_pt := ["dog"], processed_at := "t0" }

/-! ### Helper lemmas about the string primitives -/

theorem pySplitList_ne_nil (sep : Char) : ∀ cs : List Char, pySplitList sep cs ≠ []
  | [] => by simp [pySplitList]
  | c :: cs => by
    have h := pySplitList_ne_nil sep cs
    simp only [pySplitList]
    by_cases hc : c = sep
    · simp [hc]
    · simp only [if_neg hc]
      cases hr : pySplitList sep cs with
      | nil => exact absurd hr h
      | cons hd tl => simp

theorem sep_not_mem_pySplitList (sep : Char) :
    ∀ (cs l : List Char), l ∈ pySplitList sep cs → sep ∉ l
  | [], l, hl => by
    simp [pySplitList] at hl
    simp [hl]
  | c :: cs, l, hl => by
    simp only [pySplitList] at hl
    by_cases hc : c = sep
    · rw [if_pos hc] at hl
      rcases List.mem_cons.mp hl with h | h
      · simp [h]
      · exact sep_not_mem_pySplitList sep cs l h
    · rw [if_neg hc] at hl
      cases hr : pySplitList sep cs with
      | nil =>
        rw [hr] at hl
        simp at hl
        intro hmem
        rw [hl] at hmem
        simp at hmem
        exact hc hmem.symm
      | cons hd tl =>
        rw [hr] at hl
        rcases List.mem_cons.mp hl with h | h
        · subst h
          intro hmem
          rcases List.mem_cons.mp hmem with h2 | h2
          · exact hc h2.symm
          · exact sep_not_mem_pySplitList sep cs hd
              (by rw [hr]; exact List.mem_cons_self hd tl) h2
        · exact sep_not_mem_pySplitList sep cs l
            (by rw [hr]; exact List.mem_cons_of_mem hd h)

theorem getLastD_mem_of_ne_nil : ∀ (l : List α) (d : α), l ≠ [] → l.getLastD d ∈ l
  | [], _, h => absurd rfl h
  | [a], d, _ => by simp [List.getLastD]
  | a :: b :: t, d, _ => by
    rw [List.getLastD_cons]
    exact List.mem_cons_of_mem a (getLastD_mem_of_ne_nil (b :: t) a (by simp))

theorem basename_no_slash (s : String) : ∀ c ∈ (basename s).data, c ≠ '/' := by
  intro c hc
  have hmem : (pySplitList '/' s.data).getLastD [] ∈ pySplitList '/' s.data :=
    getLastD_mem_of_ne_nil _ _ (pySplitList_ne_nil '/' s.data)
  have hns := sep_not_mem_pySplitList '/' s.data _ hmem
  intro rfl_eq
  subst rfl_eq
  exact hns hc

theorem pyStrip_eq_rdropWhile (cs : List Char) :
    pyStrip cs = List.rdropWhile pySpace (List.dropWhile pySpace cs) := rfl

theorem pyStrip_idem (cs : List Char) : pyStrip (pyStrip cs) = pyStrip cs := by
  simp only [pyStrip_eq_rdropWhile]
  have h1 : List.dropWhile pySpace
      (List.rdropWhile pySpace (List.dropWhile pySpace cs)) =
      List.rdropWhile pySpace (List.dropWhile pySpace cs) := by
    cases he : List.rdropWhile pySpace (List.dropWhile pySpace cs) with
    | nil => rfl
    | cons a as =>
      obtain ⟨t, ht⟩ := List.rdropWhile_prefix pySpace (List.dropWhile pySpace cs)
      rw [he, List.cons_append] at ht
      have hne : List.dropWhile pySpace cs ≠ [] := by
        rw [← ht]; simp
      have hhead : (List.dropWhile pySpace cs).head hne = a := by
        simp only [← ht, List.head_cons]
      have hna := List.head_dropWhile_not pySpace cs hne
      rw [hhead] at hna
      simp [List.dropWhile_cons, hna]
  rw [h1, List.rdropWhile_idempotent]

theorem pyStripS_idem (s : String) : pyStripS (pyStripS s) = pyStripS s := by
  simp only [pyStripS]
  exact congrArg String.mk (pyStrip_idem s.data)

theorem mem_toDelete {stored present : List String} {x : String} :
    x ∈ toDelete stored present ↔ x ∈ stored ∧ x ∉ present := by
  simp [toDelete, List.mem_filter]

theorem mem_toCreate {stored present : List String} {x : String} :
    x ∈ toCreate stored present ↔ x ∈ present ∧ x ∉ stored := by
  simp [toCreate, List.mem_filter]

theorem mem_list_images {blobs : List String} {fp x : String} :
    x ∈ list_images_in_bucket blobs fp ↔
      ∃ b, b ∈ blobs ∧ isImageName b = true ∧ b ≠ fp ∧ basename b = x := by
  simp only [list_images_in_bucket, List.mem_dedup, List.mem_map, List.mem_filter,
    Bool.and_eq_true, decide_eq_true_eq]
  constructor
  · rintro ⟨b, ⟨hb, him, hne⟩, hbase⟩
    exact ⟨b, hb, him, hne, hbase⟩
  · rintro ⟨b, hb, him, hne, hbase⟩
    exact ⟨b, ⟨hb, him, hne⟩, hbase⟩

/-! ### Claim theorems: reconciliation diff, fatal listing failure, parsing, listing -/

/-- C1: the reconciler computes exactly `toDelete = stored − present` and
`toCreate = present − stored` over the two identifier sets; on
storage `{a.jpg, b.png}` and store `{b.png, c.jpg}` this gives
`toDelete = {c.jpg}` and `toCreate = {a.jpg}`. -/
theorem reconciler_set_difference :
    (∀ stored present : List String, ∀ x : String,
      (x ∈ toDelete stored present ↔ x ∈ stored ∧ x ∉ present) ∧
      (x ∈ toCreate stored present ↔ x ∈ present ∧ x ∉ stored)) ∧
    toDelete ["b.png", "c.jpg"] ["a.jpg", "b.png"] = ["c.jpg"] ∧
    toCreate ["b.png", "c.jpg"] ["a.jpg", "b.png"] = ["a.jpg"] :=
  ⟨fun _ _ _ => ⟨mem_toDelete, mem_toCreate⟩, by decide, by decide⟩

/-- C3: if streaming the existing record ids fails, `synchronize` logs and
returns at once: the store is unchanged and the only remote calls in the
trace are the two listing calls — no delete, fetch, tagging, translation
or save call is issued (the storage bucket is only ever read). -/
theorem listing_failure_aborts_run (env : Env) (store0 : Store)
    (h : env.listRecordsOk = false) :
    (synchronize env store0).1 = store0 ∧
    ∀ e ∈ (synchronize env store0).2, e = Event.listBlobs ∨ e = Event.listRecords := by
  constructor
  · simp [synchronize, h]
  · intro e he
    simp [synchronize, h] at he
    exact he

theorem listing_failure_aborts_run_witness :
    (synchronize envListFail [("c.jpg", recSample "c.jpg")]).1
        = [("c.jpg", recSample "c.jpg")] ∧
    ∀ e ∈ (synchronize envListFail [("c.jpg", recSample "c.jpg")]).2,
      e = Event.listBlobs ∨ e = Event.listRecords :=
  listing_failure_aborts_run envListFail [("c.jpg", recSample "c.jpg")] rfl

/-- C7: `tags_en` is obtained by splitting the model text on commas,
stripping each segment and dropping segments empty after stripping; empty
text parses to `[]`; `"cat, dog, outdoor,"` parses to
`["cat", "dog", "outdoor"]`; every produced tag is non-empty and already
stripped. -/
theorem tag_parsing_spec :
    parseTags "cat, dog, outdoor," = ["cat", "dog", "outdoor"] ∧
    parseTags "" = [] ∧
    (∀ text : String,
      parseTags text = ((pySplit ',' text).map pyStripS).filter (fun t => t ≠ "")) ∧
    ∀ (text : String) (t : String), t ∈ parseTags text → t ≠ "" ∧ pyStripS t = t := by
  refine ⟨by decide, by decide, fun _ => rfl, ?_⟩
  intro text t ht
  simp only [parseTags, List.mem_filter, List.mem_map, decide_eq_true_eq] at ht
  obtain ⟨⟨s, _, hst⟩, hne⟩ := ht
  refine ⟨hne, ?_⟩
  rw [← hst]
  exact pyStripS_idem s

theorem tag_parsing_spec_witness :
    "cat" ≠ "" ∧ pyStripS "cat" = "cat" :=
  tag_parsing_spec.2.2.2 "cat, dog, outdoor," "cat" (by decide)

/-- C8: `list_images_in_bucket` returns exactly the basenames of listed
objects whose name ends in `.jpg`, `.jpeg` or `.png` (case-sensitive) and
is not exactly the folder path; the returned identifiers contain no `/`,
so full paths are never returned.  Concretely, a nested object contributes
its basename, a `.PNG` or `.txt` object and the folder marker are dropped,
and an image name equal to the prefix is excluded. -/
theorem list_images_filter_basename :
    (∀ (blobs : List String) (fp x : String),
      x ∈ list_images_in_bucket blobs fp ↔
        ∃ b, b ∈ blobs ∧ isImageName b = true ∧ b ≠ fp ∧ basename b = x) ∧
    (∀ (blobs : List String) (fp x : String),
      x ∈ list_images_in_bucket blobs fp → ∀ c ∈ x.data, c ≠ '/') ∧
    list_images_in_bucket
      ["photos/", "photos/a.jpg", "photos/sub/b.png", "photos/c.PNG", "photos/d.txt"]
      "photos/" = ["a.jpg", "b.png"] ∧
    list_images_in_bucket ["x.png"] "x.png" = [] := by
  refine ⟨fun _ _ _ => mem_list_images, ?_, by decide, by decide⟩
  intro blobs fp x hx
  obtain ⟨b, _, _, _, hbase⟩ := mem_list_images.mp hx
  rw [← hbase]
  exact basename_no_slash b

theorem list_images_filter_basename_witness :
    ("b.png" ∈ list_images_in_bucket ["photos/sub/b.png"] "photos/") ∧ 'b' ≠ '/' :=
  ⟨(list_images_filter_basename.1 ["photos/sub/b.png"] "photos/" "b.png").mpr
      ⟨"photos/sub/b.png", by decide, by decide, by decide, by decide⟩,
    list_images_filter_basename.2.1 ["photos/sub/b.png"] "photos/" "b.png"
      (by decide) 'b' (by decide)⟩

/-! ### Helper lemmas about the store and the two loops -/

theorem mem_storeKeys_storeDelete {store : Store} {id x : String} :
    x ∈ storeKeys (storeDelete store id) ↔ x ∈ storeKeys store ∧ x ≠ id := by
  simp only [storeKeys, storeDelete, List.mem_map, List.mem_filter, decide_eq_true_eq]
  constructor
  · rintro ⟨p, ⟨hp, hne⟩, rfl⟩
    exact ⟨⟨p, hp, rfl⟩, hne⟩
  · rintro ⟨⟨p, hp, rfl⟩, hne⟩
    exact ⟨p, ⟨hp, hne⟩, rfl⟩

theorem mem_storeKeys_storeSet {store : Store} {r : ImageRecord} {x : String} :
    x ∈ storeKeys (storeSet store r) ↔ x ∈ storeKeys store ∨ x = r.file_id := by
  simp only [storeKeys, storeSet, List.map_append, List.mem_append, List.mem_map,
    List.mem_filter, decide_eq_true_eq, List.map_cons, List.map_nil,
    List.mem_singleton]
  constructor
  · rintro (⟨p, ⟨hp, _⟩, rfl⟩ | h)
    · exact Or.inl ⟨p, hp, rfl⟩
    · exact Or.inr h
  · rintro (⟨p, hp, rfl⟩ | rfl)
    · by_cases he : p.1 = r.file_id
      · exact Or.inr he
      · exact Or.inl ⟨p, ⟨hp, he⟩, rfl⟩
    · exact Or.inr rfl

theorem nodup_storeKeys_storeDelete {store : Store} (id : String)
    (h : (storeKeys store).Nodup) : (storeKeys (storeDelete store id)).Nodup := by
  simp only [storeKeys, storeDelete] at h ⊢
  exact ((List.filter_sublist store).map Prod.fst).nodup h

theorem nodup_storeKeys_storeSet {store : Store} (r : ImageRecord)
    (h : (storeKeys store).Nodup) : (storeKeys (storeSet store r)).Nodup := by
  simp only [storeKeys, storeSet, List.map_append, List.map_cons, List.map_nil]
  refine List.Nodup.append ?_ (List.nodup_singleton _) ?_
  · exact ((List.filter_sublist store).map Prod.fst).nodup h
  · intro x hx hx2
    simp only [List.mem_singleton] at hx2
    subst hx2
    simp only [List.mem_map, List.mem_filter, decide_eq_true_eq] at hx
    obtain ⟨p, ⟨_, hne⟩, he⟩ := hx
    exact hne he

theorem get_image_metadata_file_id {env : Env} {path : String} {r : ImageRecord}
    (h : (get_image_metadata env path).1 = some r) : r.file_id = basename path := by
  unfold get_image_metadata at h
  by_cases hf : env.fetchOk path
  · rw [if_pos hf] at h
    cases hg : env.gemini path with
    | none => rw [hg] at h; simp at h
    | some text =>
      rw [hg] at h
      simp only at h
      by_cases he : (if text ≠ "" then parseTags text else []).isEmpty
      · rw [if_pos he] at h
        simp at h
        rw [← h]
      · rw [if_neg he] at h
        by_cases htr : env.translateOk (if text ≠ "" then parseTags text else [])
        · rw [if_pos htr] at h
          simp at h
          rw [← h]
        · rw [if_neg htr] at h
          simp at h
  · rw [if_neg hf] at h
    simp at h

theorem get_image_metadata_fetch_mem (env : Env) (path : String) :
    Event.fetchBlob path ∈ (get_image_metadata env path).2 := by
  unfold get_image_metadata
  by_cases hf : env.fetchOk path
  · rw [if_pos hf]
    cases hg : env.gemini path with
    | none => simp
    | some text =>
      simp only
      by_cases he : (if text ≠ "" then parseTags text else []).isEmpty
      · rw [if_pos he]; simp
      · rw [if_neg he]
        by_cases htr : env.translateOk (if text ≠ "" then parseTags text else [])
        · rw [if_pos htr]; simp
        · rw [if_neg htr]; simp
  · rw [if_neg hf]; simp

theorem runDeletes_trace_mem (env : Env) :
    ∀ (ids : List String) (store : Store) (id : String), id ∈ ids →
      Event.deleteRecord id ∈ (runDeletes env ids store).2
  | [], _, _, h => by simp at h
  | i :: rest, store, id, h => by
    simp only [runDeletes, List.mem_cons]
    rcases List.mem_cons.mp h with rfl | h
    · exact Or.inl rfl
    · exact Or.inr (runDeletes_trace_mem env rest _ id h)

theorem runCreates_trace_fetch_mem (env : Env) :
    ∀ (ids : List String) (store : Store) (id : String), id ∈ ids →
      Event.fetchBlob (env.folderPath ++ id) ∈ (runCreates env ids store).2
  | [], _, _, h => by simp at h
  | i :: rest, store, id, h => by
    rcases List.mem_cons.mp h with rfl | h
    · simp only [runCreates]
      cases hg : get_image_metadata env (env.folderPath ++ id) with
      | mk res pevs =>
        have hmem : Event.fetchBlob (env.folderPath ++ id) ∈ pevs := by
          have := get_image_metadata_fetch_mem env (env.folderPath ++ id)
          rw [hg] at this
          exact this
        cases res <;> simp [hmem]
    · simp only [runCreates]
      cases hg : get_image_metadata env (env.folderPath ++ i) with
      | mk res pevs =>
        cases res <;> simp [runCreates_trace_fetch_mem env rest _ id h]

theorem runCreates_cons_none (env : Env) (id : String) (rest : List String)
    (store : Store) (h : (get_image_metadata env (env.folderPath ++ id)).1 = none) :
    runCreates env (id :: rest) store =
      ((runCreates env rest store).1,
       (get_image_metadata env (env.folderPath ++ id)).2
         ++ (runCreates env rest store).2) := by
  simp only [runCreates]
  cases hg : get_image_metadata env (env.folderPath ++ id) with
  | mk res pevs =>
    cases res with
    | none => simp
    | some r => rw [hg] at h; simp at h

theorem runCreates_cons_some (env : Env) (id : String) (rest : List String)
    (store : Store) (r : ImageRecord)
    (h : (get_image_metadata env (env.folderPath ++ id)).1 = some r) :
    runCreates env (id :: rest) store =
      ((runCreates env rest (save_metadata_to_firestore env store r)).1,
       (get_image_metadata env (env.folderPath ++ id)).2
         ++ [.saveRecord r.file_id]
         ++ (runCreates env rest (save_metadata_to_firestore env store r)).2) := by
  simp only [runCreates]
  cases hg : get_image_metadata env (env.folderPath ++ id) with
  | mk res pevs =>
    cases res with
    | none => rw [hg] at h; simp at h
    | some r2 =>
      rw [hg] at h
      simp only [Option.some.injEq] at h
      subst h
      simp

theorem runDeletes_keys (env : Env) :
    ∀ (ids : List String) (store : Store),
      (∀ id ∈ ids, env.deleteOk id = true) →
      ∀ x, x ∈ storeKeys (runDeletes env ids store).1 ↔ x ∈ storeKeys store ∧ x ∉ ids
  | [], store, _, x => by simp [runDeletes]
  | id :: rest, store, h, x => by
    have hid : env.deleteOk id = true := h id (List.mem_cons_self id rest)
    have hrest : ∀ i ∈ rest, env.deleteOk i = true :=
      fun i hi => h i (List.mem_cons_of_mem id hi)
    simp only [runDeletes, hid, if_true]
    rw [runDeletes_keys env rest (storeDelete store id) hrest x,
      mem_storeKeys_storeDelete]
    simp only [List.mem_cons]
    tauto

theorem runDeletes_nodup (env : Env) :
    ∀ (ids : List String) (store : Store), (storeKeys store).Nodup →
      (storeKeys (runDeletes env ids store).1).Nodup
  | [], store, h => by simpa [runDeletes] using h
  | id :: rest, store, h => by
    simp only [runDeletes]
    by_cases hd : env.deleteOk id = true
    · rw [if_pos hd]
      exact runDeletes_nodup env rest _ (nodup_storeKeys_storeDelete id h)
    · rw [if_neg hd]
      exact runDeletes_nodup env rest _ h

theorem runCreates_keys (env : Env) :
    ∀ (ids : List String) (store : Store),
      (∀ id ∈ ids, ((get_image_metadata env (env.folderPath ++ id)).1).isSome = true ∧
        env.saveOk id = true ∧ basename (env.folderPath ++ id) = id) →
      ∀ x, x ∈ storeKeys (runCreates env ids store).1 ↔ x ∈ storeKeys store ∨ x ∈ ids
  | [], store, _, x => by simp [runCreates]
  | id :: rest, store, h, x => by
    obtain ⟨hsome, hsave, hbase⟩ := h id (List.mem_cons_self id rest)
    have hrest := fun i hi => h i (List.mem_cons_of_mem id hi)
    obtain ⟨r, hr⟩ := Option.isSome_iff_exists.mp hsome
    have hfid : r.file_id = id := by
      rw [get_image_metadata_file_id hr, hbase]
    rw [runCreates_cons_some env id rest store r hr]
    simp only
    rw [runCreates_keys env rest _ hrest x]
    rw [save_metadata_to_firestore, hfid, hsave, if_pos rfl]
    rw [mem_storeKeys_storeSet, hfid]
    simp only [List.mem_cons]
    tauto

theorem runCreates_nodup (env : Env) :
    ∀ (ids : List String) (store : Store), (storeKeys store).Nodup →
      (storeKeys (runCreates env ids store).1).Nodup
  | [], store, h => by simpa [runCreates] using h
  | id :: rest, store, h => by
    cases hg : (get_image_metadata env (env.folderPath ++ id)).1 with
    | none =>
      rw [runCreates_cons_none env id rest store hg]
      exact runCreates_nodup env rest _ h
    | some r =>
      rw [runCreates_cons_some env id rest store r hg]
      simp only
      apply runCreates_nodup env rest
      rw [save_metadata_to_firestore]
      by_cases hs : env.saveOk r.file_id = true
      · rw [if_pos hs]
        exact nodup_storeKeys_storeSet r h
      · rw [if_neg hs]
        exact h

theorem synchronize_noop_of_eq (env : Env) (store0 : Store)
    (h : ∀ x, x ∈ list_images_in_bucket env.blobs env.folderPath ↔ x ∈ storeKeys store0) :
    toDelete ((storeKeys store0).dedup)
        (list_images_in_bucket env.blobs env.folderPath) = [] ∧
    toCreate ((storeKeys store0).dedup)
        (list_images_in_bucket env.blobs env.folderPath) = [] ∧
    synchronize env store0 = (store0, [Event.listBlobs, Event.listRecords]) := by
  have hdel : toDelete ((storeKeys store0).dedup)
      (list_images_in_bucket env.blobs env.folderPath) = [] := by
    apply List.filter_eq_nil_iff.mpr
    intro id hid
    simp only [decide_eq_true_eq, not_not]
    exact (h id).mpr (List.mem_dedup.mp hid)
  have hcre : toCreate ((storeKeys store0).dedup)
      (list_images_in_bucket env.blobs env.folderPath) = [] := by
    apply List.filter_eq_nil_iff.mpr
    intro id hid
    simp only [decide_eq_true_eq, not_not]
    exact List.mem_dedup.mpr ((h id).mp hid)
  refine ⟨hdel, hcre, ?_⟩
  by_cases hl : env.listRecordsOk
  · simp only [synchronize, hl, if_true, hdel, hcre]
    simp [runDeletes, runCreates]
  · simp [synchronize, hl]

theorem synchronize_keys_of_success (env : Env) (store0 : Store)
    (hlist : env.listRecordsOk = true)
    (hnodup : (storeKeys store0).Nodup)
    (hdel : ∀ id ∈ toDelete ((storeKeys store0).dedup)
        (list_images_in_bucket env.blobs env.folderPath), env.deleteOk id = true)
    (hcre : ∀ id ∈ toCreate ((storeKeys store0).dedup)
        (list_images_in_bucket env.blobs env.folderPath),
        ((get_image_metadata env (env.folderPath ++ id)).1).isSome = true ∧
        env.saveOk id = true ∧ basename (env.folderPath ++ id) = id) :
    (storeKeys (synchronize env store0).1).Nodup ∧
    ∀ x, x ∈ storeKeys (synchronize env store0).1 ↔
      x ∈ list_images_in_bucket env.blobs env.folderPath := by
  have hs : (synchronize env store0).1 =
      (runCreates env
        (toCreate ((storeKeys store0).dedup)
          (list_images_in_bucket env.blobs env.folderPath))
        ((runDeletes env
          (toDelete ((storeKeys store0).dedup)
            (list_images_in_bucket env.blobs env.folderPath)) store0).1)).1 := by
    simp [synchronize, hlist]
  rw [hs]
  constructor
  · exact runCreates_nodup env _ _ (runDeletes_nodup env _ _ hnodup)
  · intro x
    rw [runCreates_keys env _ _ hcre x, runDeletes_keys env _ _ hdel x,
      mem_toCreate, mem_toDelete, List.mem_dedup]
    tauto

/-- C2 amended: after a successful synchronization run (record listing
succeeded, store keys were unique, every delete succeeded, and for every
new id the pipeline and save succeeded) in which, additionally, every
created id's rebuilt path `folderPath ++ id` has basename equal to the
id — as holds whenever the folder prefix is empty or ends in `/` — the
store's key set equals the storage identifier set, with exactly one
record per key.  The extra proviso is necessary: without it a fully
successful run can violate the invariant (see the C2 counterexample). -/
theorem sync_store_matches_storage (env : Env) (store0 : Store)
    (hlist : env.listRecordsOk = true)
    (hnodup : (storeKeys store0).Nodup)
    (hdel : ∀ id ∈ toDelete ((storeKeys store0).dedup)
        (list_images_in_bucket env.blobs env.folderPath), env.deleteOk id = true)
    (hcre : ∀ id ∈ toCreate ((storeKeys store0).dedup)
        (list_images_in_bucket env.blobs env.folderPath),
        ((get_image_metadata env (env.folderPath ++ id)).1).isSome = true ∧
        env.saveOk id = true ∧ basename (env.folderPath ++ id) = id) :
    (storeKeys (synchronize env store0).1).Nodup ∧
    ∀ x, x ∈ storeKeys (synchronize env store0).1 ↔
      x ∈ list_images_in_bucket env.blobs env.folderPath :=
  synchronize_keys_of_success env store0 hlist hnodup hdel hcre

theorem sync_store_matches_storage_witness :
    (storeKeys (synchronize envOk [("c.jpg", recSample "c.jpg")]).1).Nodup ∧
    ("a.jpg" ∈ storeKeys (synchronize envOk [("c.jpg", recSample "c.jpg")]).1 ↔
      "a.jpg" ∈ list_images_in_bucket envOk.blobs envOk.folderPath) := by
  have h := sync_store_matches_storage envOk [("c.jpg", recSample "c.jpg")]
    rfl (by decide) (by decide) (by decide)
  exact ⟨h.1, h.2 "a.jpg"⟩

/-- C4: per-item failure isolation.  Inside the delete loop every id in
the batch is issued a delete call whatever happens to the others, and
inside the create loop every id is issued its fetch whatever happens to
the others; concretely, when processing `a.jpg` fails at the Gemini call,
`b.png` is still processed and persisted while `a.jpg` is not. -/
theorem per_item_failure_isolation :
    (∀ (env : Env) (ids : List String) (store : Store), ∀ id ∈ ids,
      Event.deleteRecord id ∈ (runDeletes env ids store).2) ∧
    (∀ (env : Env) (ids : List String) (store : Store), ∀ id ∈ ids,
      Event.fetchBlob (env.folderPath ++ id) ∈ (runCreates env ids store).2) ∧
    Event.fetchBlob "a.jpg" ∈ (synchronize envAB []).2 ∧
    "a.jpg" ∉ storeKeys (synchronize envAB []).1 ∧
    "b.png" ∈ storeKeys (synchronize envAB []).1 ∧
    Event.saveRecord "b.png" ∈ (synchronize envAB []).2 := by
  refine ⟨fun env ids store id h => runDeletes_trace_mem env ids store id h,
    fun env ids store id h => runCreates_trace_fetch_mem env ids store id h,
    by decide, by decide, by decide, by decide⟩

theorem per_item_failure_isolation_witness :
    Event.deleteRecord "c.jpg" ∈ (runDeletes envAB ["c.jpg"] []).2 ∧
    Event.fetchBlob (envAB.folderPath ++ "a.jpg") ∈ (runCreates envAB ["a.jpg"] []).2 :=
  ⟨per_item_failure_isolation.1 envAB ["c.jpg"] [] "c.jpg" (by decide),
   per_item_failure_isolation.2.1 envAB ["a.jpg"] [] "a.jpg" (by decide)⟩

/-- C5 amended: idempotence.  When the storage identifier set equals the
stored key set, both delta sets are empty and the run changes nothing and
makes no delete, fetch, tagging, translation or save call (the trace is
just the two listings) — this part is unconditional.  After one fully
successful run with storage unchanged, a second run is such a no-op
provided every created id's rebuilt path `folderPath ++ id` had basename
equal to the id; without that proviso a fully successful run can be
followed by a second run that performs a create (see the C5
counterexample). -/
theorem sync_idempotent :
    (∀ (env : Env) (store0 : Store),
      (∀ x, x ∈ list_images_in_bucket env.blobs env.folderPath ↔
        x ∈ storeKeys store0) →
      toDelete ((storeKeys store0).dedup)
          (list_images_in_bucket env.blobs env.folderPath) = [] ∧
      toCreate ((storeKeys store0).dedup)
          (list_images_in_bucket env.blobs env.folderPath) = [] ∧
      synchronize env store0 = (store0, [Event.listBlobs, Event.listRecords])) ∧
    ∀ (env : Env) (store0 : Store),
      env.listRecordsOk = true →
      (storeKeys store0).Nodup →
      (∀ id ∈ toDelete ((storeKeys store0).dedup)
          (list_images_in_bucket env.blobs env.folderPath),
        env.deleteOk id = true) →
      (∀ id ∈ toCreate ((storeKeys store0).dedup)
          (list_images_in_bucket env.blobs env.folderPath),
        ((get_image_metadata env (env.folderPath ++ id)).1).isSome = true ∧
        env.saveOk id = true ∧ basename (env.folderPath ++ id) = id) →
      synchronize env ((synchronize env store0).1)
        = ((synchronize env store0).1, [Event.listBlobs, Event.listRecords]) := by
  refine ⟨fun env store0 h => synchronize_noop_of_eq env store0 h, ?_⟩
  intro env store0 hlist hnodup hdel hcre
  have hk := (synchronize_keys_of_success env store0 hlist hnodup hdel hcre).2
  exact (synchronize_noop_of_eq env _ (fun x => (hk x).symm)).2.2

theorem sync_idempotent_witness :
    synchronize envIdem [("b.png", recSample "b.png")]
      = ([("b.png", recSample "b.png")], [Event.listBlobs, Event.listRecords]) ∧
    synchronize envOk ((synchronize envOk []).1)
      = ((synchronize envOk []).1, [Event.listBlobs, Event.listRecords]) := by
  constructor
  · refine (sync_idempotent.1 envIdem [("b.png", recSample "b.png")] ?_).2.2
    intro x
    have h1 : list_images_in_bucket envIdem.blobs envIdem.folderPath = ["b.png"] := by
      decide
    have h2 : storeKeys [("b.png", recSample "b.png")] = ["b.png"] := by decide
    rw [h1, h2]
  · exact sync_idempotent.2 envOk [] rfl (by decide) (by decide) (by decide)

/-- C2 counterexample: with folder prefix `photos` (no trailing slash),
objects `photos/a.jpg` and `photosa.jpg`, and an existing record for
`photosa.jpg`, the run is fully successful — no delete is needed, the one
new id `a.jpg` is fetched at the rebuilt path `photosa.jpg` (which
exists), the pipeline succeeds and the save succeeds — yet the record is
keyed by `basename "photosa.jpg" = "photosa.jpg"`, so after the run
`a.jpg` is present in storage with no record keyed by it: the store key
set differs from the storage identifier set. -/
theorem sync_invariant_prefix_cex :
    list_images_in_bucket envPfx.blobs envPfx.folderPath
        = ["a.jpg", "photosa.jpg"] ∧
    toDelete ((storeKeys store0Pfx).dedup)
        (list_images_in_bucket envPfx.blobs envPfx.folderPath) = [] ∧
    toCreate ((storeKeys store0Pfx).dedup)
        (list_images_in_bucket envPfx.blobs envPfx.folderPath) = ["a.jpg"] ∧
    ((get_image_metadata envPfx (envPfx.folderPath ++ "a.jpg")).1).isSome = true ∧
    envPfx.saveOk "photosa.jpg" = true ∧
    (synchronize envPfx store0Pfx).1 = [("photosa.jpg", recPfx)] ∧
    "a.jpg" ∉ storeKeys (synchronize envPfx store0Pfx).1 := by decide

/-- C5 counterexample: in the same trailing-slash-free configuration, a
fully successful first run leaves the store keyed by `photosa.jpg` only,
so with storage unchanged the second run again computes
`toCreate = [a.jpg]` and performs a create (fetch and save), not zero
creates. -/
theorem sync_idempotent_prefix_cex :
    (synchronize envPfx store0Pfx).1 = [("photosa.jpg", recPfx)] ∧
    ((get_image_metadata envPfx (envPfx.folderPath ++ "a.jpg")).1).isSome = true ∧
    toCreate ((storeKeys (synchronize envPfx store0Pfx).1).dedup)
        (list_images_in_bucket envPfx.blobs envPfx.folderPath) = ["a.jpg"] ∧
    Event.fetchBlob (envPfx.folderPath ++ "a.jpg")
        ∈ (synchronize envPfx (synchronize envPfx store0Pfx).1).2 ∧
    Event.saveRecord "photosa.jpg"
        ∈ (synchronize envPfx (synchronize envPfx store0Pfx).1).2 := by decide

/-! ### Translate step, basename collision, path concatenation -/

theorem if_text_parseTags (text : String) :
    (if text ≠ "" then parseTags text else []) = parseTags text := by
  by_cases h : text = ""
  · subst h
    simp only [ne_eq, not_true_eq_false, if_false]
    decide
  · rw [if_pos h]

theorem get_image_metadata_of_gemini (env : Env) (path text : String)
    (hf : env.fetchOk path = true) (hg : env.gemini path = some text) :
    get_image_metadata env path =
      if (parseTags text).isEmpty then
        (some { file_id := basename path, file_name := path,
                tags_en := parseTags text, tags_pt := [], processed_at := env.now },
         [.fetchBlob path, .geminiCall path])
      else if env.translateOk (parseTags text) then
        (some { file_id := basename path, file_name := path,
                tags_en := parseTags text,
                tags_pt := (parseTags text).map env.translateOne,
                processed_at := env.now },
         [.fetchBlob path, .geminiCall path, .translateCall (parseTags text)])
      else
        (none, [.fetchBlob path, .geminiCall path, .translateCall (parseTags text)]) := by
  unfold get_image_metadata
  rw [if_pos hf, hg]
  dsimp only
  rw [if_text_parseTags]

/-- C6: when the pipeline reaches the translate step with non-empty
`tags_en`, the translation service is called exactly once, with the full
tag list, and the record's `tags_pt` has the same length with element `i`
the translation of `tags_en[i]`; with empty `tags_en` the translation
service is never invoked and `tags_pt = []`. -/
theorem translate_step_alignment (env : Env) (path text : String)
    (hf : env.fetchOk path = true) (hg : env.gemini path = some text)
    (ht : env.translateOk (parseTags text) = true) :
    (parseTags text ≠ [] →
      ((get_image_metadata env path).2.filter isTranslateCall
          = [Event.translateCall (parseTags text)] ∧
       ∃ r, (get_image_metadata env path).1 = some r ∧
         r.tags_en = parseTags text ∧
         r.tags_pt = (parseTags text).map env.translateOne ∧
         r.tags_pt.length = (parseTags text).length ∧
         ∀ i : Nat, i < (parseTags text).length →
           r.tags_pt.getD i "" = env.translateOne ((parseTags text).getD i ""))) ∧
    (parseTags text = [] →
      ((get_image_metadata env path).2.filter isTranslateCall = [] ∧
       ∃ r, (get_image_metadata env path).1 = some r ∧
         r.tags_en = [] ∧ r.tags_pt = [])) := by
  have hm := get_image_metadata_of_gemini env path text hf hg
  constructor
  · intro hne
    have hie : (parseTags text).isEmpty = false := by
      cases hp : parseTags text with
      | nil => exact absurd hp hne
      | cons a l => rfl
    rw [hm]
    simp only [hie, Bool.false_eq_true, if_false, ht, if_true]
    refine ⟨rfl, _, rfl, rfl, rfl, by simp, ?_⟩
    intro i hi
    simp [List.getD_eq_getElem?_getD, List.getElem?_map, List.getElem?_eq_getElem hi]
  · intro hpt
    rw [hm, hpt]
    simp only [List.isEmpty_nil, if_true]
    exact ⟨rfl, _, rfl, rfl, rfl⟩

theorem translate_step_alignment_witness :
    (get_image_metadata envOk "a.jpg").2.filter isTranslateCall
      = [Event.translateCall (parseTags "cat, dog")] :=
  ((translate_step_alignment envOk "a.jpg" "cat, dog" rfl rfl (by decide)).1
    (by decide)).1

/-- C9 counterexample: with objects `d/x.jpg` and `e/x.jpg` colliding on
basename `x.jpg`, the single resulting record's `file_name` is the
prefix-plus-basename `"x.jpg"` — it is not either object's full path, so
no full storage path appears as `file_name` at all. -/
theorem basename_collision_cex :
    list_images_in_bucket envDup.blobs envDup.folderPath = ["x.jpg"] ∧
    (synchronize envDup []).1 = [("x.jpg", recDup)] ∧
    recDup.file_name ≠ "d/x.jpg" ∧ recDup.file_name ≠ "e/x.jpg" := by decide

/-- C9 amended: distinct storage objects sharing a basename collapse to a
single identifier (the listing is duplicate-free), a successful run over
the two colliding objects stores exactly one record keyed by the shared
basename, and that record's `file_name` is the configured folder prefix
concatenated with the identifier — not necessarily either object's actual
path. -/
theorem basename_collision_collapse :
    list_images_in_bucket ["d/x.jpg", "e/x.jpg"] "" = ["x.jpg"] ∧
    (∀ (blobs : List String) (fp : String), (list_images_in_bucket blobs fp).Nodup) ∧
    (synchronize envDup []).1 = [("x.jpg", recDup)] ∧
    recDup.file_name = envDup.folderPath ++ "x.jpg" :=
  ⟨by decide, fun _ _ => List.nodup_dedup _, by decide, by decide⟩

/-- C10: every id in the create loop is fetched at the path obtained by
concatenating the folder prefix and the id with no separator; for the
nested object `photos/sub/b.png` listed under prefix `photos/`, the run
fetches `photos/b.png`, which differs from the object's actual path (and
indeed the fetch fails there, since only `photos/sub/b.png` exists). -/
theorem create_path_concatenation :
    (∀ (env : Env) (ids : List String) (store : Store), ∀ id ∈ ids,
      Event.fetchBlob (env.folderPath ++ id) ∈ (runCreates env ids store).2) ∧
    list_images_in_bucket ["photos/sub/b.png"] "photos/" = ["b.png"] ∧
    (synchronize envNested []).2
      = [Event.listBlobs, Event.listRecords, Event.fetchBlob "photos/b.png"] ∧
    "photos/b.png" ≠ "photos/sub/b.png" := by
  refine ⟨fun env ids store id h => runCreates_trace_fetch_mem env ids store id h,
    by decide, by decide, by decide⟩

theorem create_path_concatenation_witness :
    Event.fetchBlob (envNested.folderPath ++ "b.png")
      ∈ (runCreates envNested ["b.png"] []).2 :=
  create_path_concatenation.1 envNested ["b.png"] [] "b.png" (by decide)
